import Mathlib

/-!
Verification of the incremental merge-and-dedupe update algorithm of the
finance-dashboard repository (scripts/crypto_data_manager.py,
scripts/psx_data_manager.py, scripts/spx500_data_manager.py).

The three scripts share one algorithm, `update_data`, operating on a per
instrument table of daily rows.  We embed the algorithm shallowly:

* a pandas DataFrame row becomes `Row` (calendar dates as `Nat` day numbers,
  numeric fields as `Option Int` — any value type distinguishable by equality
  suffices for the merge logic, which never computes with the field values);
* `df.sort_values("date")` becomes `sortByDate` (an insertion sort; the final
  stored table always has pairwise-distinct dates when it matters, so the
  order among equal-date rows never influences the statements proved here);
* `df.drop_duplicates(subset=["date"], keep="last")` becomes
  `drop_duplicates`, keeping the last occurrence of each date in order;
* `stored_df["date"].max()` becomes `maxDateD`; pandas comparison of any
  date with the NaN-max of an empty frame is false, which `newRecordsOf`
  reproduces by returning `[]` when the stored table is empty;
* the API fetch and the parquet file are external collaborators: `update_data`
  takes the loaded table (`Option (List Row)`) and the fetched batch as
  arguments, and reports the table it writes in the `written` field of its
  result (`none` = no write happened).  A falsy (empty) fetch result is the
  fetch-failure branch.  A save that fails only alters the status strings,
  so the embedding models the save as succeeding.
-/

namespace FinanceDashboard

/-- One calendar day's observation for one instrument: the `date, open, high,
low, close, volume` schema of the crypto manager (the psx manager adds two
more value columns and the spx500 manager is identical; the merge logic never
inspects the value columns, so one schema stands for all three). -/
structure Row where
  date : Nat
  open_ : Option Int
  high : Option Int
  low : Option Int
  close : Option Int
  volume : Option Int
deriving DecidableEq, Repr

/-- Comparison used by `df.sort_values("date")`: order rows by date. -/
def dateLE (a b : Row) : Prop := a.date ≤ b.date

instance : DecidableRel dateLE := fun a b => Nat.decLe a.date b.date

instance : IsTotal Row dateLE := ⟨fun a b => Nat.le_total a.date b.date⟩

instance : IsTrans Row dateLE := ⟨fun _ _ _ hab hbc => Nat.le_trans hab hbc⟩

/-- `df.sort_values("date")`: sort rows ascending by date. -/
def sortByDate (rows : List Row) : List Row := List.insertionSort dateLE rows

/-- The date column of a table. -/
def datesOf (rows : List Row) : List Nat := rows.map Row.date

/-- `df["date"].max()` with default 0 for the empty frame (the empty case is
always guarded separately, mirroring pandas NaN semantics). -/
def maxDateD (rows : List Row) : Nat := (datesOf rows).foldr max 0

/-- `df.drop_duplicates(subset=["date"], keep="last")`: keep a row exactly
when no later row has the same date. -/
def drop_duplicates : List Row → List Row
  | [] => []
  | r :: rest =>
    if rest.any (fun x => x.date == r.date) then drop_duplicates rest
    else r :: drop_duplicates rest

/-- `df_new[df_new["date"] > stored_latest_date]`.  When the stored table is
empty its pandas date max is NaN and every comparison with it is false, so no
row qualifies. -/
def newRecordsOf (stored df_new : List Row) : List Row :=
  if stored.isEmpty then []
  else df_new.filter (fun r => decide (maxDateD stored < r.date))

/-- Which message the result dict carries (`"Failed to fetch …"`,
`"Initial data saved …"`, `"No new data …"`, `"Added n new records …"`). -/
inductive UpdateMsg
  | fetchFailed
  | initialSaved
  | noNewData
  | addedRecords
deriving DecidableEq, Repr

/-- The JSON result of `update_data`, plus the table written to storage
(`written = none` means no save happened). -/
structure UpdateResult where
  success : Bool
  msg : UpdateMsg
  records_count : Nat
  new_records_count : Option Nat
  latest_date : Option Nat
  written : Option (List Row)
deriving DecidableEq, Repr

/-- `update_data` of crypto_data_manager.py lines 110-181 (identically
psx_data_manager.py lines 97-181 and the merge part of spx500_data_manager.py
lines 241-321): load unless forced, abort on falsy fetch, save the sorted
batch when nothing is stored, otherwise admit only rows strictly newer than
the stored maximum date, concat, drop duplicate dates keeping the last
occurrence, sort, save. -/
def update_data (stored? : Option (List Row)) (api_data : List Row)
    (force_refresh : Bool) : UpdateResult :=
  let stored_df := if force_refresh then none else stored?
  if api_data.isEmpty then
    ⟨false, .fetchFailed, 0, none, none, none⟩
  else
    let df_new := sortByDate api_data
    match stored_df with
    | none =>
        ⟨true, .initialSaved, df_new.length, none,
          if df_new.isEmpty then none else some (maxDateD df_new),
          some df_new⟩
    | some stored =>
        let new_records := newRecordsOf stored df_new
        if new_records.isEmpty then
          ⟨true, .noNewData, stored.length, some 0,
            if stored.isEmpty then none else some (maxDateD stored),
            none⟩
        else
          let df_combined := sortByDate (drop_duplicates (stored ++ new_records))
          ⟨true, .addedRecords, df_combined.length, some new_records.length,
            if df_combined.isEmpty then none else some (maxDateD df_combined),
            some df_combined⟩

/-- State of the parquet file of one instrument as `load_stored_data` sees
it: absent, present but unreadable, or readable with some rows. -/
inductive FileState
  | missing
  | corrupt
  | good (rows : List Row)

/-- `load_stored_data` (crypto_data_manager.py lines 80-95): `none` when the
file is absent, and also `none` when reading raises — the exception is caught,
logged and swallowed. -/
def load_stored_data : FileState → Option (List Row)
  | .missing => none
  | .corrupt => none
  | .good rows => some rows

/-- `update_data` run against the actual file state. -/
def update_from_file (fs : FileState) (api_data : List Row)
    (force_refresh : Bool) : UpdateResult :=
  update_data (load_stored_data fs) api_data force_refresh

/-- The flat quote dict returned by `get_latest_price`. -/
structure LatestQuote where
  date : Nat
  close : Option Int
  open_ : Option Int
  high : Option Int
  low : Option Int
  volume : Option Int
deriving DecidableEq, Repr

/-- Projection of `df.iloc[-1]` into the flat quote: each numeric field is
passed through, a missing (`None`/NaN) field staying `none` rather than
raising. -/
def rowToQuote (r : Row) : LatestQuote :=
  ⟨r.date, r.close, r.open_, r.high, r.low, r.volume⟩

/-- `get_latest_price` (crypto_data_manager.py lines 184-210, identically in
the other two scripts): `None` when the table is absent or empty, otherwise
the last row projected to a flat quote. -/
def get_latest_price (stored? : Option (List Row)) : Option LatestQuote :=
  match stored? with
  | none => none
  | some df => if df.isEmpty then none else (df.getLast?).map rowToQuote

/-- A row carrying only a date and a close value, for concrete scenarios. -/
def mkRow (d : Nat) (c : Option Int) : Row := ⟨d, none, none, none, c, none⟩

/-! ### Volume parsing (spx500_data_manager.py, `parse_volume`) -/

/-- Optional leading sign of a decimal literal. -/
def splitSign : List Char → Bool × List Char
  | '-' :: rest => (true, rest)
  | '+' :: rest => (false, rest)
  | cs => (false, cs)

/-- Value of a digit string, most significant first. -/
def digitsToNat (cs : List Char) : Nat :=
  cs.foldl (fun n c => 10 * n + (c.toNat - 48)) 0

/-- `s.replace(c, "")` for a single-character pattern: drop every occurrence
of the character. -/
def stripChar (c : Char) (cs : List Char) : List Char :=
  cs.filter (fun x => x != c)

/-- Python `str.strip()`: drop leading and trailing whitespace. -/
def trimChars (cs : List Char) : List Char :=
  ((cs.dropWhile Char.isWhitespace).reverse.dropWhile Char.isWhitespace).reverse

/-- The cleaning pipeline of `parse_volume`:
`str(vol_str).replace(",", "").upper().strip()`. -/
def cleanVol (cs : List Char) : List Char :=
  trimChars ((stripChar ',' cs).map Char.toUpper)

/-- A parsed decimal number, kept unreduced as mantissa and count of
fractional digits; `qVal` below gives its value.  The float arithmetic the
script performs on its volume strings is exact (small decimal mantissas times
powers of ten), so this exact representation is a faithful carrier. -/
def qVal (p : Int × Nat) : ℚ := (p.1 : ℚ) / (10 : ℚ) ^ p.2

/-- Trailing decimal exponent of a float literal (the part after `e`/`E`). -/
def applyExpP (p : Int × Nat) (r : List Char) : Option (Int × Nat) :=
  let sn := splitSign r
  let ed := sn.2.takeWhile Char.isDigit
  let rest := sn.2.dropWhile Char.isDigit
  if ed.isEmpty ∨ ¬ rest.isEmpty then none
  else if sn.1 then some (p.1, p.2 + digitsToNat ed)
  else some (p.1 * (10 : Int) ^ digitsToNat ed, p.2)

/-- Python `float()` on a plain decimal literal: optional sign, digits with an
optional fractional part, optional decimal exponent, surrounding whitespace
stripped; `none` where `float()` raises `ValueError`. -/
def pyFloatP (cs : List Char) : Option (Int × Nat) :=
  let sn := splitSign (trimChars cs)
  let ip := sn.2.takeWhile Char.isDigit
  let rest1 := sn.2.dropWhile Char.isDigit
  let fpRest : List Char × List Char :=
    match rest1 with
    | '.' :: r => (r.takeWhile Char.isDigit, r.dropWhile Char.isDigit)
    | _ => ([], rest1)
  if ip.isEmpty ∧ fpRest.1.isEmpty then none
  else
    let mag : Int := (digitsToNat (ip ++ fpRest.1) : Int)
    let m : Int := if sn.1 then -mag else mag
    match fpRest.2 with
    | [] => some (m, fpRest.1.length)
    | 'e' :: r => applyExpP (m, fpRest.1.length) r
    | 'E' :: r => applyExpP (m, fpRest.1.length) r
    | _ => none

/-- `parse_volume` (spx500_data_manager.py lines 203-218) on the character
sequence of the input: `None` for a falsy input, otherwise strip commas,
uppercase and trim, expand a trailing `B`/`M`/`K` suffix by the matching
power of ten, and parse; a parse failure yields `None`, not an exception. -/
def parse_volumeP (vol : Option (List Char)) : Option (Int × Nat) :=
  match vol with
  | none => none
  | some s =>
    if s.isEmpty then none
    else
      let cleaned := cleanVol s
      if cleaned.getLast? = some 'B' then
        (pyFloatP (stripChar 'B' cleaned)).map (fun p => (p.1 * 1000000000, p.2))
      else if cleaned.getLast? = some 'M' then
        (pyFloatP (stripChar 'M' cleaned)).map (fun p => (p.1 * 1000000, p.2))
      else if cleaned.getLast? = some 'K' then
        (pyFloatP (stripChar 'K' cleaned)).map (fun p => (p.1 * 1000, p.2))
      else pyFloatP cleaned

/-- `parse_volume` with its result read off as an exact rational. -/
def parse_volume (vol_str : Option String) : Option ℚ :=
  (parse_volumeP (vol_str.map String.toList)).map qVal


/-! ### Folded maxima -/

theorem le_foldr_max {l : List Nat} {x : Nat} (hx : x ∈ l) : x ≤ l.foldr max 0 := by
  induction l with
  | nil => exact absurd hx (List.not_mem_nil x)
  | cons a t ih =>
    rcases List.mem_cons.mp hx with rfl | hx
    · exact le_max_left _ _
    · exact le_trans (ih hx) (le_max_right _ _)

theorem foldr_max_le {l : List Nat} {B : Nat} (h : ∀ x ∈ l, x ≤ B) :
    l.foldr max 0 ≤ B := by
  induction l with
  | nil => exact Nat.zero_le B
  | cons a t ih =>
    exact max_le (h a (List.mem_cons_self a t)) (ih fun x hx => h x (List.mem_cons_of_mem a hx))

theorem foldr_max_congr {l l' : List Nat} (h : ∀ x, x ∈ l ↔ x ∈ l') :
    l.foldr max 0 = l'.foldr max 0 :=
  le_antisymm (foldr_max_le fun x hx => le_foldr_max ((h x).mp hx))
    (foldr_max_le fun x hx => le_foldr_max ((h x).mpr hx))

theorem foldr_max_mem : ∀ {l : List Nat}, l ≠ [] → l.foldr max 0 ∈ l
  | [], h => absurd rfl h
  | [a], _ => by simp
  | a :: b :: t, _ => by
    rcases le_total a ((b :: t).foldr max 0) with h | h
    · rw [List.foldr_cons, max_eq_right h]
      exact List.mem_cons_of_mem a (foldr_max_mem (List.cons_ne_nil b t))
    · rw [List.foldr_cons, max_eq_left h]
      exact List.mem_cons_self a (b :: t)

theorem foldr_max_append (l₁ l₂ : List Nat) :
    (l₁ ++ l₂).foldr max 0 = max (l₁.foldr max 0) (l₂.foldr max 0) := by
  induction l₁ with
  | nil => simp
  | cons a t ih => simp [ih, max_assoc]

/-! ### `sortByDate` -/

theorem sortByDate_perm (l : List Row) : List.Perm (sortByDate l) l :=
  List.perm_insertionSort dateLE l

theorem mem_sortByDate {r : Row} {l : List Row} : r ∈ sortByDate l ↔ r ∈ l :=
  (sortByDate_perm l).mem_iff

theorem length_sortByDate (l : List Row) : (sortByDate l).length = l.length :=
  (sortByDate_perm l).length_eq

theorem datesOf_perm_sortByDate (l : List Row) :
    List.Perm (datesOf (sortByDate l)) (datesOf l) :=
  (sortByDate_perm l).map Row.date

theorem maxDateD_sortByDate (l : List Row) : maxDateD (sortByDate l) = maxDateD l :=
  foldr_max_congr fun _ => (datesOf_perm_sortByDate l).mem_iff

theorem sorted_sortByDate (l : List Row) : (sortByDate l).Sorted dateLE :=
  List.sorted_insertionSort dateLE l

theorem datesOf_sortByDate_pairwise (l : List Row) :
    (datesOf (sortByDate l)).Pairwise (· ≤ ·) :=
  List.pairwise_map.mpr (sorted_sortByDate l)

/-! ### `drop_duplicates` -/

theorem mem_of_mem_drop_duplicates {r : Row} :
    ∀ {l : List Row}, r ∈ drop_duplicates l → r ∈ l
  | [], h => absurd h (List.not_mem_nil r)
  | x :: rest, h => by
    rw [drop_duplicates] at h
    by_cases ha : rest.any (fun y => y.date == x.date) = true
    · rw [if_pos ha] at h
      exact List.mem_cons_of_mem x (mem_of_mem_drop_duplicates h)
    · rw [if_neg ha] at h
      rcases List.mem_cons.mp h with rfl | h
      · exact List.mem_cons_self r rest
      · exact List.mem_cons_of_mem x (mem_of_mem_drop_duplicates h)

@[simp] theorem datesOf_nil : datesOf [] = [] := rfl

@[simp] theorem datesOf_cons (x : Row) (l : List Row) :
    datesOf (x :: l) = x.date :: datesOf l := rfl

theorem datesOf_append (l₁ l₂ : List Row) :
    datesOf (l₁ ++ l₂) = datesOf l₁ ++ datesOf l₂ := List.map_append _ _ _

theorem date_mem_drop_duplicates {d : Nat} :
    ∀ {l : List Row}, d ∈ datesOf l → d ∈ datesOf (drop_duplicates l)
  | [], h => absurd h (List.not_mem_nil d)
  | x :: rest, h => by
    rw [drop_duplicates]
    rw [datesOf_cons] at h
    by_cases ha : rest.any (fun y => y.date == x.date) = true
    · rw [if_pos ha]
      rcases List.mem_cons.mp h with rfl | hd
      · rcases List.any_eq_true.mp ha with ⟨y, hy, hyd⟩
        have hyx : y.date = x.date := by simpa using hyd
        exact date_mem_drop_duplicates (hyx ▸ List.mem_map_of_mem Row.date hy)
      · exact date_mem_drop_duplicates hd
    · rw [if_neg ha, datesOf_cons]
      rcases List.mem_cons.mp h with rfl | hd
      · exact List.mem_cons_self _ _
      · exact List.mem_cons_of_mem _ (date_mem_drop_duplicates hd)

theorem drop_duplicates_eq_self :
    ∀ {l : List Row}, (datesOf l).Nodup → drop_duplicates l = l
  | [], _ => rfl
  | x :: rest, h => by
    rw [datesOf_cons, List.nodup_cons] at h
    have ha : ¬ rest.any (fun y => y.date == x.date) = true := by
      intro ha
      rcases List.any_eq_true.mp ha with ⟨y, hy, hyd⟩
      have : y.date = x.date := by simpa using hyd
      exact h.1 (this ▸ List.mem_map_of_mem Row.date hy)
    rw [drop_duplicates, if_neg ha, drop_duplicates_eq_self h.2]

theorem nodup_datesOf_drop_duplicates :
    ∀ (l : List Row), (datesOf (drop_duplicates l)).Nodup
  | [] => List.nodup_nil
  | x :: rest => by
    rw [drop_duplicates]
    by_cases ha : rest.any (fun y => y.date == x.date) = true
    · rw [if_pos ha]
      exact nodup_datesOf_drop_duplicates rest
    · rw [if_neg ha, datesOf_cons, List.nodup_cons]
      refine ⟨fun hmem => ha ?_, nodup_datesOf_drop_duplicates rest⟩
      rcases List.mem_map.mp hmem with ⟨y, hy, hyd⟩
      exact List.any_eq_true.mpr ⟨y, mem_of_mem_drop_duplicates hy, by simpa using hyd⟩

theorem mem_drop_duplicates_of_unique {r : Row} :
    ∀ {l : List Row}, r ∈ l → (∀ x ∈ l, x.date = r.date → x = r) →
      r ∈ drop_duplicates l
  | [], hr, _ => absurd hr (List.not_mem_nil r)
  | x :: rest, hr, hu => by
    rw [drop_duplicates]
    by_cases ha : rest.any (fun y => y.date == x.date) = true
    · rw [if_pos ha]
      rcases List.mem_cons.mp hr with rfl | hr
      · rcases List.any_eq_true.mp ha with ⟨y, hy, hyd⟩
        have hyr : y = r :=
          hu y (List.mem_cons_of_mem r hy) (by simpa using hyd)
        exact mem_drop_duplicates_of_unique (hyr ▸ hy)
          (fun z hz hzd => hu z (List.mem_cons_of_mem r hz) hzd)
      · exact mem_drop_duplicates_of_unique hr
          (fun z hz hzd => hu z (List.mem_cons_of_mem x hz) hzd)
    · rw [if_neg ha]
      rcases List.mem_cons.mp hr with rfl | hr
      · exact List.mem_cons_self r _
      · exact List.mem_cons_of_mem x
          (mem_drop_duplicates_of_unique hr
            (fun z hz hzd => hu z (List.mem_cons_of_mem x hz) hzd))

theorem maxDateD_drop_duplicates (l : List Row) :
    maxDateD (drop_duplicates l) = maxDateD l :=
  foldr_max_congr fun d =>
    ⟨fun hd => by
      rcases List.mem_map.mp hd with ⟨y, hy, rfl⟩
      exact List.mem_map_of_mem Row.date (mem_of_mem_drop_duplicates hy),
     fun hd => date_mem_drop_duplicates hd⟩

theorem maxDateD_append (l₁ l₂ : List Row) :
    maxDateD (l₁ ++ l₂) = max (maxDateD l₁) (maxDateD l₂) := by
  rw [maxDateD, datesOf_append, foldr_max_append]; rfl

/-! ### `newRecordsOf` -/

theorem mem_newRecordsOf {r : Row} {stored df : List Row} :
    r ∈ newRecordsOf stored df ↔
      stored ≠ [] ∧ r ∈ df ∧ maxDateD stored < r.date := by
  rw [newRecordsOf]
  by_cases hs : stored.isEmpty
  · rw [if_pos hs]
    simp [List.isEmpty_iff.mp hs]
  · rw [if_neg hs]
    simp only [List.mem_filter, decide_eq_true_eq]
    have : stored ≠ [] := fun h => hs (by simp [h])
    tauto

/-! ### Branches of `update_data` -/

theorem sortByDate_ne_nil {b : List Row} (hb : b ≠ []) : sortByDate b ≠ [] := by
  intro h
  apply hb
  have := length_sortByDate b
  rw [h] at this
  exact List.length_eq_zero.mp this.symm

theorem drop_duplicates_ne_nil : ∀ {l : List Row}, l ≠ [] → drop_duplicates l ≠ []
  | [], h => absurd rfl h
  | x :: rest, _ => by
    intro h
    have hd : x.date ∈ datesOf (drop_duplicates (x :: rest)) :=
      date_mem_drop_duplicates (by simp)
    rw [h] at hd
    exact List.not_mem_nil _ hd

theorem update_data_fetchFailed (stored? : Option (List Row)) (force : Bool) :
    update_data stored? [] force = ⟨false, .fetchFailed, 0, none, none, none⟩ := rfl

theorem update_data_no_stored {b : List Row} (hb : b ≠ []) (force : Bool) :
    update_data none b force =
      ⟨true, .initialSaved, b.length, none, some (maxDateD b), some (sortByDate b)⟩ := by
  have hbe : b.isEmpty = false := by
    cases b with
    | nil => exact absurd rfl hb
    | cons x t => rfl
  have hse : (sortByDate b).isEmpty = false := by
    rcases h : sortByDate b with _ | ⟨x, t⟩
    · exact absurd h (sortByDate_ne_nil hb)
    · rfl
  cases force <;>
    simp [update_data, hbe, hse, length_sortByDate, maxDateD_sortByDate]

theorem update_data_forced (s : List Row) (b : List Row) :
    update_data (some s) b true = update_data none b true := rfl

theorem update_data_noNew {s b : List Row} (hs : s ≠ []) (hb : b ≠ [])
    (hnr : newRecordsOf s (sortByDate b) = []) :
    update_data (some s) b false =
      ⟨true, .noNewData, s.length, some 0, some (maxDateD s), none⟩ := by
  have hbe : b.isEmpty = false := by
    cases b with
    | nil => exact absurd rfl hb
    | cons x t => rfl
  have hse : s.isEmpty = false := by
    cases s with
    | nil => exact absurd rfl hs
    | cons x t => rfl
  simp [update_data, hbe, hse, hnr]

theorem update_data_merge {s b : List Row} (hb : b ≠ [])
    (hnr : newRecordsOf s (sortByDate b) ≠ []) :
    update_data (some s) b false =
      ⟨true, .addedRecords,
        (drop_duplicates (s ++ newRecordsOf s (sortByDate b))).length,
        some (newRecordsOf s (sortByDate b)).length,
        some (maxDateD (drop_duplicates (s ++ newRecordsOf s (sortByDate b)))),
        some (sortByDate (drop_duplicates (s ++ newRecordsOf s (sortByDate b))))⟩ := by
  have hbe : b.isEmpty = false := by
    cases b with
    | nil => exact absurd rfl hb
    | cons x t => rfl
  have hnre : (newRecordsOf s (sortByDate b)).isEmpty = false := by
    rcases h : newRecordsOf s (sortByDate b) with _ | ⟨x, t⟩
    · exact absurd h hnr
    · rfl
  have hcne : drop_duplicates (s ++ newRecordsOf s (sortByDate b)) ≠ [] :=
    drop_duplicates_ne_nil (by
      intro h
      exact hnr (List.append_eq_nil.mp h).2)
  have hce : (sortByDate (drop_duplicates (s ++ newRecordsOf s (sortByDate b)))).isEmpty
      = false := by
    rcases h : sortByDate (drop_duplicates (s ++ newRecordsOf s (sortByDate b)))
      with _ | ⟨x, t⟩
    · exact absurd h (sortByDate_ne_nil hcne)
    · rfl
  simp [update_data, hbe, hnre, hce, length_sortByDate, maxDateD_sortByDate]

/-- Every table that `update_data` writes is either the sorted batch (initial
save or forced refresh) or the sorted dedupe of stored ++ strictly-newer
records (merge). -/
theorem written_cases {stored? : Option (List Row)} {b : List Row} {force : Bool}
    {t : List Row} (hw : (update_data stored? b force).written = some t) :
    b ≠ [] ∧
      (t = sortByDate b ∨
        ∃ s, stored? = some s ∧ force = false ∧
          newRecordsOf s (sortByDate b) ≠ [] ∧
          t = sortByDate (drop_duplicates (s ++ newRecordsOf s (sortByDate b)))) := by
  have hbne : b ≠ [] := by
    intro h
    rw [h, update_data_fetchFailed] at hw
    exact Option.noConfusion hw
  refine ⟨hbne, ?_⟩
  cases force with
  | true =>
    rcases stored? with _ | s
    · rw [update_data_no_stored hbne true] at hw
      exact Or.inl (Option.some_injective _ hw).symm
    · rw [update_data_forced, update_data_no_stored hbne true] at hw
      exact Or.inl (Option.some_injective _ hw).symm
  | false =>
    rcases stored? with _ | s
    · rw [update_data_no_stored hbne false] at hw
      exact Or.inl (Option.some_injective _ hw).symm
    · by_cases hnr : newRecordsOf s (sortByDate b) = []
      · exfalso
        have hbe : b.isEmpty = false := by
          cases b with
          | nil => exact absurd rfl hbne
          | cons x bt => rfl
        have hwn : (update_data (some s) b false).written = none := by
          simp [update_data, hbe, hnr]
        rw [hwn] at hw
        exact Option.noConfusion hw
      · rw [update_data_merge hbne hnr] at hw
        exact Or.inr ⟨s, rfl, rfl, hnr, (Option.some_injective _ hw).symm⟩


/-! ### Further helpers shared by the claims -/

/-- With a stored table present and no force flag, a write happens exactly on
the merge branch, and the written table is the sorted dedupe. -/
theorem update_data_written_some {s b t : List Row}
    (hw : (update_data (some s) b false).written = some t) :
    b ≠ [] ∧ newRecordsOf s (sortByDate b) ≠ [] ∧
      t = sortByDate (drop_duplicates (s ++ newRecordsOf s (sortByDate b))) := by
  have hbne : b ≠ [] := by
    intro h
    rw [h, update_data_fetchFailed] at hw
    exact Option.noConfusion hw
  by_cases hnr : newRecordsOf s (sortByDate b) = []
  · exfalso
    have hbe : b.isEmpty = false := List.isEmpty_eq_false.mpr hbne
    have hwn : (update_data (some s) b false).written = none := by
      simp [update_data, hbe, hnr]
    rw [hwn] at hw
    exact Option.noConfusion hw
  · rw [update_data_merge hbne hnr] at hw
    exact ⟨hbne, hnr, (Option.some_injective _ hw).symm⟩

theorem pairwise_lt_of_le_nodup {l : List Nat}
    (h1 : l.Pairwise (· ≤ ·)) (h2 : l.Nodup) : l.Pairwise (· < ·) :=
  (h1.and h2).imp fun h => lt_of_le_of_ne h.1 h.2

theorem getLast_eq_foldr_max :
    ∀ {l : List Nat}, l.Pairwise (· ≤ ·) → ∀ {m : Nat}, l.getLast? = some m →
      l.foldr max 0 = m
  | [], _, m, hm => Option.noConfusion hm
  | [a], _, m, hm => by
    have : a = m := Option.some_injective _ (by simpa using hm)
    simp [this]
  | a :: c :: t, hp, m, hm => by
    rw [List.getLast?_cons_cons] at hm
    have ih := getLast_eq_foldr_max (List.Pairwise.of_cons hp) hm
    have hmem : m ∈ c :: t := List.mem_of_getLast?_eq_some hm
    have ham : a ≤ m := (List.pairwise_cons.mp hp).1 m hmem
    rw [List.foldr_cons, ih, max_eq_right ham]

/-! ### The claims -/

/-- C1 (amended): provided the incoming batch has pairwise-distinct dates,
the table written by any successful update — initial save, forced refresh or
merge — is strictly sorted ascending by date; in particular no two of its
rows share a date. -/
theorem C1_written_strictly_sorted {stored? : Option (List Row)} {b : List Row}
    {force : Bool} {t : List Row} (hb : (datesOf b).Nodup)
    (hw : (update_data stored? b force).written = some t) :
    (datesOf t).Pairwise (· < ·) := by
  rcases written_cases hw with ⟨hbne, rfl | ⟨s, _, _, hnr, rfl⟩⟩
  · exact pairwise_lt_of_le_nodup (datesOf_sortByDate_pairwise b)
      ((datesOf_perm_sortByDate b).nodup_iff.mpr hb)
  · exact pairwise_lt_of_le_nodup (datesOf_sortByDate_pairwise _)
      ((datesOf_perm_sortByDate _).nodup_iff.mpr
        (nodup_datesOf_drop_duplicates _))

/-- C1 counterexample: a batch carrying two rows with the same date is stored
as-is by the initial save, so the written table has two rows of date 1 and is
not strictly sorted. -/
theorem C1_cex :
    datesOf (((update_data none [mkRow 1 (some 10), mkRow 1 (some 20)]
        false).written).getD []) = [1, 1] ∧
    ¬ (datesOf (((update_data none [mkRow 1 (some 10), mkRow 1 (some 20)]
        false).written).getD [])).Pairwise (fun a b => a < b) := by
  constructor
  · decide
  · intro h
    have := List.pairwise_cons.mp (by
      have e : datesOf (((update_data none
          [mkRow 1 (some 10), mkRow 1 (some 20)] false).written).getD [])
          = [1, 1] := by decide
      rw [e] at h
      exact h)
    exact absurd (this.1 1 (List.mem_cons_self 1 [])) (lt_irrefl 1)

theorem C1_witness :
    (datesOf (sortByDate [mkRow 2 none, mkRow 1 none])).Pairwise
      (fun a b => a < b) :=
  @C1_written_strictly_sorted none [mkRow 2 none, mkRow 1 none] false
    (sortByDate [mkRow 2 none, mkRow 1 none]) (by decide) (by decide)

/-- C2 (amended): for stored rows dated 1..5 and an incoming batch dated
4..8, the non-forced update stores exactly the dates 1..8 with row count 8,
the rows dated 1..5 keeping their stored values — in particular the date-4
row keeps the stored value, since the incoming date-4 row is discarded by the
strictly-newer filter — and the rows dated 6..8 taking the incoming values. -/
theorem C2_merge_scenario (v1 v2 v3 v4 v5 w4 w5 w6 w7 w8 : Option Int) :
    update_data
        (some [mkRow 1 v1, mkRow 2 v2, mkRow 3 v3, mkRow 4 v4, mkRow 5 v5])
        [mkRow 4 w4, mkRow 5 w5, mkRow 6 w6, mkRow 7 w7, mkRow 8 w8] false
      = ⟨true, .addedRecords, 8, some 3, some 8,
          some [mkRow 1 v1, mkRow 2 v2, mkRow 3 v3, mkRow 4 v4, mkRow 5 v5,
                mkRow 6 w6, mkRow 7 w7, mkRow 8 w8]⟩ := by
  have hsb : sortByDate [mkRow 4 w4, mkRow 5 w5, mkRow 6 w6, mkRow 7 w7, mkRow 8 w8]
      = [mkRow 4 w4, mkRow 5 w5, mkRow 6 w6, mkRow 7 w7, mkRow 8 w8] := rfl
  have hnr : newRecordsOf
        [mkRow 1 v1, mkRow 2 v2, mkRow 3 v3, mkRow 4 v4, mkRow 5 v5]
        [mkRow 4 w4, mkRow 5 w5, mkRow 6 w6, mkRow 7 w7, mkRow 8 w8]
      = [mkRow 6 w6, mkRow 7 w7, mkRow 8 w8] := rfl
  have hdd : drop_duplicates
        ([mkRow 1 v1, mkRow 2 v2, mkRow 3 v3, mkRow 4 v4, mkRow 5 v5] ++
          [mkRow 6 w6, mkRow 7 w7, mkRow 8 w8])
      = [mkRow 1 v1, mkRow 2 v2, mkRow 3 v3, mkRow 4 v4, mkRow 5 v5,
         mkRow 6 w6, mkRow 7 w7, mkRow 8 w8] := rfl
  have hsc : sortByDate
        [mkRow 1 v1, mkRow 2 v2, mkRow 3 v3, mkRow 4 v4, mkRow 5 v5,
         mkRow 6 w6, mkRow 7 w7, mkRow 8 w8]
      = [mkRow 1 v1, mkRow 2 v2, mkRow 3 v3, mkRow 4 v4, mkRow 5 v5,
         mkRow 6 w6, mkRow 7 w7, mkRow 8 w8] := rfl
  rw [update_data_merge (List.cons_ne_nil _ _)
      (by rw [hsb, hnr]; exact List.cons_ne_nil _ _)]
  rw [hsb, hnr, hdd, hsc]
  rfl

/-- C2 counterexample: with stored close 100 at date 4 and incoming close 105
at date 4, the merged table keeps the stored row and does not contain the
incoming one, refuting "D4's values taken from the incoming batch". -/
theorem C2_cex :
    mkRow 4 (some 100) ∈
      ((update_data
        (some [mkRow 1 (some 1), mkRow 2 (some 2), mkRow 3 (some 3),
               mkRow 4 (some 100), mkRow 5 (some 5)])
        [mkRow 4 (some 105), mkRow 5 (some 505), mkRow 6 (some 6),
         mkRow 7 (some 7), mkRow 8 (some 8)] false).written).getD [] ∧
    mkRow 4 (some 105) ∉
      ((update_data
        (some [mkRow 1 (some 1), mkRow 2 (some 2), mkRow 3 (some 3),
               mkRow 4 (some 100), mkRow 5 (some 5)])
        [mkRow 4 (some 105), mkRow 5 (some 505), mkRow 6 (some 6),
         mkRow 7 (some 7), mkRow 8 (some 8)] false).written).getD [] := by
  decide

theorem C2_witness :
    update_data
        (some [mkRow 1 (some 1), mkRow 2 (some 2), mkRow 3 (some 3),
               mkRow 4 (some 4), mkRow 5 (some 5)])
        [mkRow 4 (some 40), mkRow 5 (some 50), mkRow 6 (some 60),
         mkRow 7 (some 70), mkRow 8 (some 80)] false
      = ⟨true, .addedRecords, 8, some 3, some 8,
          some [mkRow 1 (some 1), mkRow 2 (some 2), mkRow 3 (some 3),
                mkRow 4 (some 4), mkRow 5 (some 5), mkRow 6 (some 60),
                mkRow 7 (some 70), mkRow 8 (some 80)]⟩ :=
  C2_merge_scenario (some 1) (some 2) (some 3) (some 4) (some 5)
    (some 40) (some 50) (some 60) (some 70) (some 80)

/-- C5: with `forceRefresh = true` the stored table is ignored entirely: the
call behaves exactly as if nothing were stored, and the table it saves is the
incoming batch sorted ascending by date (a permutation of the batch, sorted
by date). -/
theorem C5_force_refresh (s b : List Row) (hb : b ≠ []) :
    update_data (some s) b true = update_data none b true ∧
    (update_data (some s) b true).written = some (sortByDate b) ∧
    List.Perm (sortByDate b) b ∧
    (datesOf (sortByDate b)).Pairwise (· ≤ ·) := by
  refine ⟨rfl, ?_, sortByDate_perm b, datesOf_sortByDate_pairwise b⟩
  rw [update_data_forced, update_data_no_stored hb true]

theorem C5_witness :
    update_data (some [mkRow 9 (some 9)]) [mkRow 2 none, mkRow 1 none] true
        = update_data none [mkRow 2 none, mkRow 1 none] true ∧
    (update_data (some [mkRow 9 (some 9)]) [mkRow 2 none, mkRow 1 none]
        true).written = some (sortByDate [mkRow 2 none, mkRow 1 none]) ∧
    List.Perm (sortByDate [mkRow 2 none, mkRow 1 none])
      [mkRow 2 none, mkRow 1 none] ∧
    (datesOf (sortByDate [mkRow 2 none, mkRow 1 none])).Pairwise (· ≤ ·) :=
  C5_force_refresh [mkRow 9 (some 9)] [mkRow 2 none, mkRow 1 none] (by decide)

/-- C7: a stored file that exists but cannot be parsed loads as `none` (the
failure is logged and swallowed, not propagated), so the update proceeds down
the initial-save path and the freshly fetched batch replaces the corrupt
file. -/
theorem C7_corrupt_replaced (b : List Row) (hb : b ≠ []) :
    load_stored_data FileState.corrupt = none ∧
    update_from_file FileState.corrupt b false = update_data none b false ∧
    (update_from_file FileState.corrupt b false).msg = UpdateMsg.initialSaved ∧
    (update_from_file FileState.corrupt b false).written = some (sortByDate b) := by
  have h := update_data_no_stored hb false
  refine ⟨rfl, rfl, ?_, ?_⟩
  · show (update_data none b false).msg = UpdateMsg.initialSaved
    rw [h]
  · show (update_data none b false).written = some (sortByDate b)
    rw [h]

theorem C7_witness :
    load_stored_data FileState.corrupt = none ∧
    update_from_file FileState.corrupt [mkRow 1 (some 7)] false
        = update_data none [mkRow 1 (some 7)] false ∧
    (update_from_file FileState.corrupt [mkRow 1 (some 7)] false).msg
        = UpdateMsg.initialSaved ∧
    (update_from_file FileState.corrupt [mkRow 1 (some 7)] false).written
        = some (sortByDate [mkRow 1 (some 7)]) :=
  C7_corrupt_replaced [mkRow 1 (some 7)] (by decide)

theorem newRecordsOf_nil_right (s : List Row) :
    newRecordsOf s (sortByDate []) = [] := by
  rw [newRecordsOf]
  split
  · rfl
  · rfl

/-- C3: a non-forced update against an existing non-empty table admits only
batch rows strictly newer than the stored maximum date — every written row is
a stored row or such a strictly-newer batch row — and when the strictly-newer
partition is empty nothing is written and the result reports no new data, the
existing row count, zero new records and the existing latest date. -/
theorem C3_partition {s b : List Row} (hs : s ≠ []) (hb : b ≠ []) :
    (∀ t, (update_data (some s) b false).written = some t →
        ∀ r ∈ t, r ∈ s ∨ (r ∈ b ∧ maxDateD s < r.date)) ∧
    (newRecordsOf s (sortByDate b) = [] →
        update_data (some s) b false =
          ⟨true, UpdateMsg.noNewData, s.length, some 0,
            some (maxDateD s), none⟩) := by
  constructor
  · intro t hw r hr
    obtain ⟨_, hnr, ht⟩ := update_data_written_some hw
    rw [ht, mem_sortByDate] at hr
    rcases List.mem_append.mp (mem_of_mem_drop_duplicates hr) with h | h
    · exact Or.inl h
    · obtain ⟨_, hmem, hgt⟩ := mem_newRecordsOf.mp h
      exact Or.inr ⟨mem_sortByDate.mp hmem, hgt⟩
  · intro hnr
    exact update_data_noNew hs hb hnr

theorem C3_witness :
    update_data (some [mkRow 3 (some 3)]) [mkRow 1 (some 1)] false
      = ⟨true, UpdateMsg.noNewData, 1, some 0, some 3, none⟩ :=
  (@C3_partition [mkRow 3 (some 3)] [mkRow 1 (some 1)]
    (by decide) (by decide)).2 (by decide)

/-- C4: update is idempotent over a fixed batch: running a non-forced update
with the same batch against the table a previous update wrote reports zero
new records and the unchanged row count, and performs no write. -/
theorem C4_idempotent {stored? : Option (List Row)} {b : List Row}
    {force : Bool} {t : List Row}
    (hw : (update_data stored? b force).written = some t) :
    (update_data (some t) b false).new_records_count = some 0 ∧
    (update_data (some t) b false).records_count = t.length ∧
    (update_data (some t) b false).written = none := by
  obtain ⟨hbne, hcase⟩ := written_cases hw
  have htne : t ≠ [] := by
    rcases hcase with rfl | ⟨s, _, _, hnr, rfl⟩
    · exact sortByDate_ne_nil hbne
    · exact sortByDate_ne_nil (drop_duplicates_ne_nil
        (fun h => hnr (List.append_eq_nil.mp h).2))
  have hkey : newRecordsOf t (sortByDate b) = [] := by
    rw [newRecordsOf,
      if_neg (by rw [List.isEmpty_eq_false.mpr htne]; exact Bool.false_ne_true),
      List.filter_eq_nil_iff]
    intro x hx
    simp only [decide_eq_true_eq]
    intro hlt
    have hxd : x.date ≤ maxDateD t := by
      rcases hcase with rfl | ⟨s, _, _, hnr, rfl⟩
      · exact le_foldr_max (List.mem_map_of_mem Row.date hx)
      · have hsne : s ≠ [] := by
          intro h
          apply hnr
          rw [h]
          rfl
        have hMt : maxDateD (sortByDate (drop_duplicates
              (s ++ newRecordsOf s (sortByDate b))))
            = max (maxDateD s) (maxDateD (newRecordsOf s (sortByDate b))) := by
          rw [maxDateD_sortByDate, maxDateD_drop_duplicates, maxDateD_append]
        rcases le_or_lt x.date (maxDateD s) with hle | hgt
        · rw [hMt]
          exact le_trans hle (le_max_left _ _)
        · have hxnr : x ∈ newRecordsOf s (sortByDate b) :=
            mem_newRecordsOf.mpr ⟨hsne, hx, hgt⟩
          rw [hMt]
          exact le_trans (le_foldr_max (List.mem_map_of_mem Row.date hxnr))
            (le_max_right _ _)
    exact absurd hlt (not_lt.mpr hxd)
  rw [update_data_noNew htne hbne hkey]
  exact ⟨rfl, rfl, rfl⟩

theorem C4_witness :
    (update_data (some [mkRow 1 (some 1)]) [mkRow 1 (some 1)]
        false).new_records_count = some 0 ∧
    (update_data (some [mkRow 1 (some 1)]) [mkRow 1 (some 1)]
        false).records_count = [mkRow 1 (some 1)].length ∧
    (update_data (some [mkRow 1 (some 1)]) [mkRow 1 (some 1)]
        false).written = none :=
  @C4_idempotent none [mkRow 1 (some 1)] false [mkRow 1 (some 1)] (by decide)

/-- C6: the latest-price query returns absent for an absent or empty table;
over a table sorted ascending by date (the Table invariant) it returns the
last row — the row whose date is the table's maximum date — projected to the
flat quote, each possibly-missing numeric field passed through as an option
rather than failing. -/
theorem C6_latest {df : List Row} {r : Row}
    (hs : (datesOf df).Pairwise (· ≤ ·)) (hlast : df.getLast? = some r) :
    get_latest_price (some df) = some (rowToQuote r) ∧
    r.date = maxDateD df ∧
    get_latest_price none = none ∧
    get_latest_price (some ([] : List Row)) = none := by
  have hne : df ≠ [] := by
    intro h
    rw [h] at hlast
    exact Option.noConfusion hlast
  have hie : df.isEmpty = false := List.isEmpty_eq_false.mpr hne
  refine ⟨?_, ?_, rfl, rfl⟩
  · simp [get_latest_price, hie, hlast]
  · have hdl : (datesOf df).getLast? = some r.date := by
      rw [datesOf, List.getLast?_map, hlast]
      rfl
    exact (getLast_eq_foldr_max hs hdl).symm

theorem C6_witness :
    get_latest_price (some [mkRow 1 (some 5), mkRow 3 none])
        = some (rowToQuote (mkRow 3 none)) ∧
    (mkRow 3 none).date = maxDateD [mkRow 1 (some 5), mkRow 3 none] ∧
    get_latest_price none = none ∧
    get_latest_price (some ([] : List Row)) = none :=
  @C6_latest [mkRow 1 (some 5), mkRow 3 none] (mkRow 3 none)
    (by decide) (by decide)

/-- C8: volume parsing expands "2.5B", "140M" and "3K" to 2 500 000 000,
140 000 000 and 3 000; a non-empty value whose cleaned form carries no
B/M/K suffix parses as the plain number when it is numeric and yields null
when it is not; a missing or empty value yields null, never a failure. -/
theorem C8_parse_volume :
    parse_volume (some "2.5B") = some 2500000000 ∧
    parse_volume (some "140M") = some 140000000 ∧
    parse_volume (some "3K") = some 3000 ∧
    (∀ (s : String) (p : Int × Nat), s.toList ≠ [] →
      (cleanVol s.toList).getLast? ≠ some 'B' →
      (cleanVol s.toList).getLast? ≠ some 'M' →
      (cleanVol s.toList).getLast? ≠ some 'K' →
      pyFloatP (cleanVol s.toList) = some p →
      parse_volume (some s) = some (qVal p)) ∧
    (∀ s : String, s.toList ≠ [] →
      (cleanVol s.toList).getLast? ≠ some 'B' →
      (cleanVol s.toList).getLast? ≠ some 'M' →
      (cleanVol s.toList).getLast? ≠ some 'K' →
      pyFloatP (cleanVol s.toList) = none →
      parse_volume (some s) = none) ∧
    parse_volume (some "abc") = none ∧
    parse_volume none = none ∧
    parse_volume (some "") = none := by
  refine ⟨?_, ?_, ?_, ?_, ?_, by decide, rfl, by decide⟩
  · show (parse_volumeP (some "2.5B".toList)).map qVal = some 2500000000
    rw [show parse_volumeP (some "2.5B".toList)
        = some ((25000000000 : Int), (1 : Nat)) from by decide]
    show some (qVal (25000000000, 1)) = some 2500000000
    norm_num [qVal]
  · show (parse_volumeP (some "140M".toList)).map qVal = some 140000000
    rw [show parse_volumeP (some "140M".toList)
        = some ((140000000 : Int), (0 : Nat)) from by decide]
    show some (qVal (140000000, 0)) = some 140000000
    norm_num [qVal]
  · show (parse_volumeP (some "3K".toList)).map qVal = some 3000
    rw [show parse_volumeP (some "3K".toList)
        = some ((3000 : Int), (0 : Nat)) from by decide]
    show some (qVal (3000, 0)) = some 3000
    norm_num [qVal]
  · intro s p hne hB hM hK hp
    show (parse_volumeP (some s.toList)).map qVal = some (qVal p)
    have hpp : parse_volumeP (some s.toList) = some p := by
      have hie : s.toList.isEmpty = false := List.isEmpty_eq_false.mpr hne
      simp only [parse_volumeP]
      rw [if_neg (by rw [hie]; exact Bool.false_ne_true),
        if_neg hB, if_neg hM, if_neg hK]
      exact hp
    rw [hpp]
    rfl
  · intro s hne hB hM hK hp
    show (parse_volumeP (some s.toList)).map qVal = none
    have hpp : parse_volumeP (some s.toList) = none := by
      have hie : s.toList.isEmpty = false := List.isEmpty_eq_false.mpr hne
      simp only [parse_volumeP]
      rw [if_neg (by rw [hie]; exact Bool.false_ne_true),
        if_neg hB, if_neg hM, if_neg hK]
      exact hp
    rw [hpp]
    rfl

theorem C8_witness :
    parse_volume (some "123.5") = some (qVal (1235, 1)) :=
  C8_parse_volume.2.2.2.1 "123.5" (1235, 1)
    (by decide) (by decide) (by decide) (by decide) (by decide)

/-- C9: over a stored table with pairwise-distinct dates, a non-forced update
never modifies or removes a stored row: every stored row appears unchanged in
any table it writes, and every written row is either a stored row or a batch
row strictly newer than the stored maximum date. -/
theorem C9_frame {s : List Row} (hnd : (datesOf s).Nodup) :
    ∀ b t, (update_data (some s) b false).written = some t →
      (∀ r ∈ s, r ∈ t) ∧
      (∀ r ∈ t, r ∈ s ∨ (r ∈ b ∧ maxDateD s < r.date)) := by
  intro b t hw
  obtain ⟨hbne, hnr, ht⟩ := update_data_written_some hw
  constructor
  · intro r hr
    rw [ht, mem_sortByDate]
    apply mem_drop_duplicates_of_unique (List.mem_append_left _ hr)
    intro x hx hxd
    rcases List.mem_append.mp hx with hx | hx
    · exact List.inj_on_of_nodup_map hnd hx hr hxd
    · exfalso
      obtain ⟨_, _, hgt⟩ := mem_newRecordsOf.mp hx
      have hrle : r.date ≤ maxDateD s :=
        le_foldr_max (List.mem_map_of_mem Row.date hr)
      rw [hxd] at hgt
      exact absurd hgt (not_lt.mpr hrle)
  · intro r hr
    rw [ht, mem_sortByDate] at hr
    rcases List.mem_append.mp (mem_of_mem_drop_duplicates hr) with h | h
    · exact Or.inl h
    · obtain ⟨_, hmem, hgt⟩ := mem_newRecordsOf.mp h
      exact Or.inr ⟨mem_sortByDate.mp hmem, hgt⟩

theorem C9_witness :
    mkRow 1 (some 1) ∈ [mkRow 1 (some 1), mkRow 2 (some 2)] ∧
    mkRow 2 (some 2) ∈ ([mkRow 1 (some 1)] : List Row) ∨
      (mkRow 2 (some 2) ∈ [mkRow 2 (some 2)] ∧
        maxDateD [mkRow 1 (some 1)] < (mkRow 2 (some 2)).date) :=
  Or.inr ((@C9_frame [mkRow 1 (some 1)] (by decide) [mkRow 2 (some 2)]
    [mkRow 1 (some 1), mkRow 2 (some 2)] (by decide)).2
    (mkRow 2 (some 2)) (by decide) |>.resolve_left (by decide))

/-- C10 (amended): when the stored table and the incoming batch each have
pairwise-distinct dates and the merge path is taken, deduplication removes
nothing: records_count equals stored count plus new_records_count, and the
reported latest_date is the maximum date of the incoming batch. -/
theorem C10_merge_counts {s b : List Row}
    (hnds : (datesOf s).Nodup) (hndb : (datesOf b).Nodup)
    (hnr : newRecordsOf s (sortByDate b) ≠ []) :
    (update_data (some s) b false).records_count
        = s.length + (newRecordsOf s (sortByDate b)).length ∧
    (update_data (some s) b false).new_records_count
        = some (newRecordsOf s (sortByDate b)).length ∧
    (update_data (some s) b false).latest_date = some (maxDateD b) := by
  have hsne : s ≠ [] := by
    intro h
    apply hnr
    rw [h]
    rfl
  have hbne : b ≠ [] := by
    intro h
    apply hnr
    rw [h]
    exact newRecordsOf_nil_right s
  have hse : s.isEmpty = false := List.isEmpty_eq_false.mpr hsne
  have hndnr : (datesOf (newRecordsOf s (sortByDate b))).Nodup := by
    have hsub : List.Sublist (datesOf (newRecordsOf s (sortByDate b)))
        (datesOf (sortByDate b)) := by
      rw [newRecordsOf, if_neg (by rw [hse]; exact Bool.false_ne_true)]
      exact (List.filter_sublist _).map Row.date
    exact ((datesOf_perm_sortByDate b).nodup_iff.mpr hndb).sublist hsub
  have hdisj : (datesOf s).Disjoint (datesOf (newRecordsOf s (sortByDate b))) := by
    intro d hds hdnr
    rcases List.mem_map.mp hdnr with ⟨x, hx, rfl⟩
    obtain ⟨_, _, hgt⟩ := mem_newRecordsOf.mp hx
    exact absurd hgt (not_lt.mpr (le_foldr_max hds))
  have hndc : (datesOf (s ++ newRecordsOf s (sortByDate b))).Nodup := by
    rw [datesOf_append]
    exact List.nodup_append.mpr ⟨hnds, hndnr, hdisj⟩
  have hdd : drop_duplicates (s ++ newRecordsOf s (sortByDate b))
      = s ++ newRecordsOf s (sortByDate b) := drop_duplicates_eq_self hndc
  have hMnr_le : maxDateD (newRecordsOf s (sortByDate b)) ≤ maxDateD b :=
    foldr_max_le (fun d hd => by
      rcases List.mem_map.mp hd with ⟨x, hx, rfl⟩
      obtain ⟨_, hmem, _⟩ := mem_newRecordsOf.mp hx
      exact le_foldr_max (List.mem_map_of_mem Row.date (mem_sortByDate.mp hmem)))
  obtain ⟨x0, hx0⟩ := List.exists_mem_of_ne_nil _ hnr
  obtain ⟨_, hmem0, hx0gt⟩ := mem_newRecordsOf.mp hx0
  have hsb : maxDateD s < maxDateD b :=
    lt_of_lt_of_le hx0gt
      (le_foldr_max (List.mem_map_of_mem Row.date (mem_sortByDate.mp hmem0)))
  have hMb_mem : maxDateD b ∈ datesOf b :=
    foldr_max_mem (fun h => hbne (List.map_eq_nil_iff.mp h))
  rcases List.mem_map.mp hMb_mem with ⟨rb, hrb, hrbd⟩
  have hrbnr : rb ∈ newRecordsOf s (sortByDate b) :=
    mem_newRecordsOf.mpr ⟨hsne, mem_sortByDate.mpr hrb, by rw [hrbd]; exact hsb⟩
  have hMnr : maxDateD (newRecordsOf s (sortByDate b)) = maxDateD b :=
    le_antisymm hMnr_le
      (by rw [← hrbd]; exact le_foldr_max (List.mem_map_of_mem Row.date hrbnr))
  rw [update_data_merge hbne hnr, hdd]
  refine ⟨List.length_append _ _, rfl, ?_⟩
  show some (maxDateD (s ++ newRecordsOf s (sortByDate b))) = some (maxDateD b)
  rw [maxDateD_append, hMnr, max_eq_right (le_of_lt hsb)]

/-- C10 counterexample: with a batch holding two rows of the same new date,
deduplication removes one of them: records_count is 2, not stored count (1)
plus new_records_count (2). -/
theorem C10_cex :
    (datesOf [mkRow 1 (some 1)]).Nodup ∧
    (update_data (some [mkRow 1 (some 1)])
        [mkRow 2 (some 2), mkRow 2 (some 3)] false).new_records_count
      = some 2 ∧
    (update_data (some [mkRow 1 (some 1)])
        [mkRow 2 (some 2), mkRow 2 (some 3)] false).records_count = 2 ∧
    (update_data (some [mkRow 1 (some 1)])
        [mkRow 2 (some 2), mkRow 2 (some 3)] false).records_count
      ≠ [mkRow 1 (some 1)].length + 2 := by
  decide

theorem C10_witness :
    (update_data (some [mkRow 1 (some 1)]) [mkRow 2 (some 2)]
        false).records_count
      = [mkRow 1 (some 1)].length
        + (newRecordsOf [mkRow 1 (some 1)]
            (sortByDate [mkRow 2 (some 2)])).length ∧
    (update_data (some [mkRow 1 (some 1)]) [mkRow 2 (some 2)]
        false).new_records_count
      = some (newRecordsOf [mkRow 1 (some 1)]
          (sortByDate [mkRow 2 (some 2)])).length ∧
    (update_data (some [mkRow 1 (some 1)]) [mkRow 2 (some 2)]
        false).latest_date = some (maxDateD [mkRow 2 (some 2)]) :=
  @C10_merge_counts [mkRow 1 (some 1)] [mkRow 2 (some 2)]
    (by decide) (by decide) (by decide)

end FinanceDashboard
